import Mathlib

/-!
Verification of the playlist reconciliation engine, the query cache and the
duration formatter of the youtube-playlists repository, as a shallow
embedding: every definition below is translated from the Python source
(models/track.py, core/cache.py, core/utils.py, commands/sync.py,
core/youtube_client.py), with Python dicts rendered as association lists,
Python exceptions as Except values, and datetime / list indexing modelled
explicitly.
-/

namespace PlaylistSync

/-- A song from the Markdown file (models/track.py, class Track). -/
structure Track where
  position : Nat
  title : String
  artist : String
deriving DecidableEq, Repr

/-- Derived cache key of a track (Track.query in models/track.py). -/
def Track.query (t : Track) : String := t.title ++ " - " ++ t.artist

/-- One YouTube search result (models/track.py, class SearchMatch). -/
structure SearchMatch where
  video_id : String
  title : String
  channel : String
  duration : String
deriving DecidableEq, Repr

/-- Status of a cache entry (models/track.py, enum CacheStatus). -/
inductive CacheStatus where
  | FOUND
  | NOT_FOUND
deriving DecidableEq, Repr

/-- A playlist item as returned by YouTubeClient.get_playlist_items
(core/youtube_client.py lines 287-293): a dict with item_id, video_id
and position. -/
structure RemoteItem where
  item_id : String
  video_id : String
  position : Nat
deriving DecidableEq, Repr

/-- A Python dict with string keys, rendered as an association list in
insertion order; assignment replaces the value of an existing key in
place and appends a fresh key at the end, exactly as CPython dicts do. -/
def dictInsert {α : Type} : List (String × α) → String → α → List (String × α)
  | [], k, v => [(k, v)]
  | (k0, v0) :: rest, k, v =>
    if k0 = k then (k0, v) :: rest else (k0, v0) :: dictInsert rest k v

/-- Dict lookup: value of the first matching key. -/
def dictGet {α : Type} : List (String × α) → String → Option α
  | [], _ => none
  | (k0, v0) :: rest, k => if k0 = k then some v0 else dictGet rest k

/-- Python membership test on a dict. -/
def dictContains {α : Type} (m : List (String × α)) (k : String) : Bool :=
  (dictGet m k).isSome

/-- The dict comprehension of sync.py line 109:
current_by_video_id holds item["video_id"] -> item for item in current_items. -/
def currentByVideoId (R : List RemoteItem) : List (String × RemoteItem) :=
  R.foldl (fun m it => dictInsert m it.video_id it) []

/-- The reconciliation plan computed by sync_command (sync.py lines 112-129):
to_add, to_remove and unknown. -/
structure Plan where
  toAdd : List (Nat × Track × String)
  toRemove : List (String × String)
  unknown : List RemoteItem
deriving DecidableEq, Repr

/-- The pure diff of sync_command (sync.py lines 108-129) over the desired
tuples D = (position, track, video_id), the live remote items R, and the
remove_unknown flag: to_add collects desired tuples whose video_id is not a
key of current_by_video_id, in D order; each remote item whose video_id is
not in the desired id set goes to to_remove when remove_unknown is set and
to unknown otherwise. -/
def computePlan (D : List (Nat × Track × String)) (R : List RemoteItem)
    (removeUnknown : Bool) : Plan :=
  let currentIndex := currentByVideoId R
  let desiredIds : List String := D.map (fun x => x.2.2)
  let toAdd := D.filter (fun x => ! dictContains currentIndex x.2.2)
  let toRemove :=
    if removeUnknown then
      (R.filter (fun it => ! decide (it.video_id ∈ desiredIds))).map
        (fun it => (it.item_id, it.video_id))
    else []
  let unknown :=
    if removeUnknown then []
    else R.filter (fun it => ! decide (it.video_id ∈ desiredIds))
  ⟨toAdd, toRemove, unknown⟩

theorem dictGet_dictInsert {α : Type} (m : List (String × α)) (k k2 : String)
    (v : α) :
    dictGet (dictInsert m k v) k2 = if k2 = k then some v else dictGet m k2 := by
  induction m with
  | nil =>
    by_cases h : k2 = k
    · subst h
      simp [dictInsert, dictGet]
    · have h2 : ¬ k = k2 := fun hh => h hh.symm
      simp [dictInsert, dictGet, h, h2]
  | cons p rest ih =>
    obtain ⟨k0, v0⟩ := p
    by_cases h0 : k0 = k
    · subst h0
      by_cases h2 : k2 = k0
      · subst h2
        simp [dictInsert, dictGet]
      · have h2b : ¬ k0 = k2 := fun hh => h2 hh.symm
        simp [dictInsert, dictGet, h2, h2b]
    · simp only [dictInsert, if_neg h0, dictGet]
      rw [ih]
      by_cases h2 : k0 = k2
      · subst h2
        simp [h0]
      · simp [h2]

theorem find?_append_some {α : Type} {p : α → Bool} {l1 l2 : List α} {x : α}
    (h : l1.find? p = some x) : (l1 ++ l2).find? p = some x := by
  induction l1 with
  | nil => simp [List.find?] at h
  | cons a rest ih =>
    simp only [List.cons_append, List.find?] at h ⊢
    cases hp : p a with
    | true => simpa [hp] using h
    | false =>
      rw [hp] at h
      simpa [hp] using ih h

theorem find?_append_none {α : Type} {p : α → Bool} {l1 l2 : List α}
    (h : l1.find? p = none) : (l1 ++ l2).find? p = l2.find? p := by
  induction l1 with
  | nil => simp
  | cons a rest ih =>
    simp only [List.cons_append, List.find?] at h ⊢
    cases hp : p a with
    | true => simp [hp] at h
    | false =>
      rw [hp] at h
      simpa [hp] using ih h

/-- Generalized form: lookup in the dict built by folding dictInsert over R
returns the last matching item of R, else falls back to the accumulator. -/
theorem dictGet_foldl (R : List RemoteItem) (m : List (String × RemoteItem))
    (v : String) :
    dictGet (R.foldl (fun m it => dictInsert m it.video_id it) m) v =
      match R.reverse.find? (fun it => it.video_id == v) with
      | some it => some it
      | none => dictGet m v := by
  induction R generalizing m with
  | nil => simp
  | cons it rest ih =>
    simp only [List.foldl_cons, List.reverse_cons]
    rw [ih]
    cases h : rest.reverse.find? (fun it => it.video_id == v) with
    | some x =>
      rw [find?_append_some h]
    | none =>
      rw [find?_append_none h]
      rw [dictGet_dictInsert]
      by_cases hv : it.video_id = v
      · simp [List.find?, hv]
      · have hb : (it.video_id == v) = false := by
          simp [hv]
        have hv2 : ¬ v = it.video_id := fun hh => hv hh.symm
        simp [List.find?, hb, hv2]

/-- Lookup in current_by_video_id returns the last item of R with the given
video_id. -/
theorem currentByVideoId_get (R : List RemoteItem) (v : String) :
    dictGet (currentByVideoId R) v =
      R.reverse.find? (fun it => it.video_id == v) := by
  unfold currentByVideoId
  rw [dictGet_foldl]
  cases h : R.reverse.find? (fun it => it.video_id == v) <;> simp [dictGet]

/-- Key membership of current_by_video_id coincides with video_id membership
in R. -/
theorem dictContains_currentByVideoId (R : List RemoteItem) (v : String) :
    dictContains (currentByVideoId R) v = decide (v ∈ R.map RemoteItem.video_id) := by
  unfold dictContains
  rw [currentByVideoId_get]
  cases h : R.reverse.find? (fun it => it.video_id == v) with
  | none =>
    have hall := List.find?_eq_none.mp h
    have hnot : ¬ v ∈ R.map RemoteItem.video_id := by
      intro hv
      obtain ⟨it, hit, hvid⟩ := List.mem_map.mp hv
      have := hall it (List.mem_reverse.mpr hit)
      simp [hvid] at this
    simp [hnot]
  | some x =>
    have hx : x.video_id = v := by simpa using List.find?_some h
    have hmem : x ∈ R := List.mem_reverse.mp (List.mem_of_find?_eq_some h)
    have hv : v ∈ R.map RemoteItem.video_id := hx ▸ List.mem_map_of_mem RemoteItem.video_id hmem
    simp [hv]

/-- Desired track of the spec scenario, position 1. -/
def exTrackA : Track := ⟨1, "Yeah!", "Usher"⟩

/-- Desired track of the spec scenario, position 2. -/
def exTrackB : Track := ⟨2, "In Da Club", "50 Cent"⟩

/-- Desired list of the spec scenario for C1. -/
def exDesired : List (Nat × Track × String) :=
  [(1, exTrackA, "vid_a"), (2, exTrackB, "vid_b")]

/-- Remote list of the spec scenario for C1. -/
def exRemote : List RemoteItem := [⟨"item1", "vid_a", 0⟩]

/-- C1: for every desired list D and remote list R, to_add consists exactly of
the tuples of D whose video_id does not occur among the video_ids of R, in D
order; in the concrete scenario (desired vid_a, vid_b against remote vid_a)
the plan adds only the vid_b tuple and removes nothing. -/
theorem toAdd_exactly_missing_desired (D : List (Nat × Track × String))
    (R : List RemoteItem) (removeUnknown : Bool) :
    (computePlan D R removeUnknown).toAdd =
      D.filter (fun x => ! decide (x.2.2 ∈ R.map RemoteItem.video_id)) ∧
    (computePlan exDesired exRemote removeUnknown).toAdd =
      [(2, exTrackB, "vid_b")] ∧
    (computePlan exDesired exRemote removeUnknown).toRemove = [] := by
  refine ⟨?_, ?_, ?_⟩
  · show D.filter (fun x => ! dictContains (currentByVideoId R) x.2.2) = _
    apply List.filter_congr
    intro x _
    rw [dictContains_currentByVideoId]
  · cases removeUnknown <;> decide
  · cases removeUnknown <;> decide

/-- Desired list (v1, v2) of the C2 purge scenario. -/
def exDesired2 : List (Nat × Track × String) :=
  [(1, ⟨1, "Song1", "Artist1"⟩, "v1"), (2, ⟨2, "Song2", "Artist2"⟩, "v2")]

/-- Remote list (v1, v2, v3) of the C2 purge scenario. -/
def exRemote3 : List RemoteItem :=
  [⟨"i1", "v1", 0⟩, ⟨"i2", "v2", 1⟩, ⟨"i3", "v3", 2⟩]

/-- C2: with purge disabled the remove set is empty and every remote item whose
video_id is not desired is classified unknown; with purge enabled the remove
set is exactly the (item_id, video_id) pairs of those items and nothing is
classified unknown; plus the concrete v1/v2/v3 scenario. -/
theorem toRemove_unknown_classification (D : List (Nat × Track × String))
    (R : List RemoteItem) :
    ((computePlan D R false).toRemove = [] ∧
      (computePlan D R false).unknown =
        R.filter (fun it => ! decide (it.video_id ∈ D.map (fun x => x.2.2)))) ∧
    ((computePlan D R true).toRemove =
        (R.filter (fun it => ! decide (it.video_id ∈ D.map (fun x => x.2.2)))).map
          (fun it => (it.item_id, it.video_id)) ∧
      (computePlan D R true).unknown = []) ∧
    ((computePlan exDesired2 exRemote3 false).toRemove = [] ∧
      (computePlan exDesired2 exRemote3 false).unknown = [⟨"i3", "v3", 2⟩] ∧
      (computePlan exDesired2 exRemote3 true).toRemove = [("i3", "v3")]) := by
  refine ⟨⟨rfl, rfl⟩, ⟨rfl, rfl⟩, by decide, by decide, by decide⟩

theorem computePlan_toAdd (D : List (Nat × Track × String)) (R : List RemoteItem)
    (rm : Bool) :
    (computePlan D R rm).toAdd =
      D.filter (fun x => ! dictContains (currentByVideoId R) x.2.2) := rfl

theorem computePlan_toRemove_false (D : List (Nat × Track × String))
    (R : List RemoteItem) : (computePlan D R false).toRemove = [] := rfl

theorem computePlan_toRemove_true (D : List (Nat × Track × String))
    (R : List RemoteItem) :
    (computePlan D R true).toRemove =
      (R.filter (fun it => ! decide (it.video_id ∈ D.map (fun x => x.2.2)))).map
        (fun it => (it.item_id, it.video_id)) := rfl

theorem computePlan_unknown_false (D : List (Nat × Track × String))
    (R : List RemoteItem) :
    (computePlan D R false).unknown =
      R.filter (fun it => ! decide (it.video_id ∈ D.map (fun x => x.2.2))) := rfl

theorem computePlan_unknown_true (D : List (Nat × Track × String))
    (R : List RemoteItem) : (computePlan D R true).unknown = [] := rfl

/-- Effect of executing a plan on the remote playlist state (sync.py lines
165-190 together with the YouTube API semantics): every to_remove pair
deletes the remote item carrying its item_id (remove_playlist_item), and
every to_add entry appends a fresh item holding its video_id
(add_video_to_playlist without a position appends at the end). The item_ids
of the appended items are supplied by ids. -/
def applyPlan (R : List RemoteItem) (p : Plan) (ids : Nat → String) :
    List RemoteItem :=
  R.filter (fun it => ! decide (it.item_id ∈ p.toRemove.map (fun q => q.1))) ++
    p.toAdd.enum.map (fun pr => ⟨ids pr.1, pr.2.2.2, 0⟩)

/-- Outcome of one playlistItems().insert call as classified by sync.py lines
171-179: success, VideoUnavailableError (caught, skipped) or
QuotaExceededError (SystemExit(1)). -/
inductive AddOutcome where
  | ok
  | unavailable
  | quota
deriving DecidableEq, Repr

/-- Outcome of one playlistItems().delete call as classified by sync.py lines
184-190: success or QuotaExceededError (SystemExit(1)). -/
inductive RemOutcome where
  | ok
  | quota
deriving DecidableEq, Repr

/-- One remote mutation call attempted by the apply phase. -/
inductive ApiCall where
  | addVideo (video_id : String)
  | removeItem (item_id : String)
deriving DecidableEq, Repr

/-- The add loop of sync.py lines 169-179: each entry of to_add triggers one
add_video_to_playlist call; an unavailable video is skipped, a quota error
stops the loop and aborts the run. Returns the attempted calls in order and
whether the run aborted. -/
def runAdds : List (Nat × Track × String) → (String → AddOutcome) →
    List ApiCall × Bool
  | [], _ => ([], false)
  | x :: rest, f =>
    match f x.2.2 with
    | AddOutcome.quota => ([ApiCall.addVideo x.2.2], true)
    | _ =>
      let r := runAdds rest f
      (ApiCall.addVideo x.2.2 :: r.1, r.2)

/-- The remove loop of sync.py lines 182-190: each to_remove pair triggers one
remove_playlist_item call; a quota error stops the loop and aborts the run. -/
def runRemoves : List (String × String) → (String → RemOutcome) →
    List ApiCall × Bool
  | [], _ => ([], false)
  | x :: rest, g =>
    match g x.1 with
    | RemOutcome.quota => ([ApiCall.removeItem x.1], true)
    | RemOutcome.ok =>
      let r := runRemoves rest g
      (ApiCall.removeItem x.1 :: r.1, r.2)

/-- Apply phase of sync_command (sync.py lines 165-190): the add loop runs
first; only if it did not abort does the remove loop run. -/
def applyPhase (adds : List (Nat × Track × String))
    (removes : List (String × String)) (f : String → AddOutcome)
    (g : String → RemOutcome) : List ApiCall × Bool :=
  let ra := runAdds adds f
  if ra.2 then ra
  else (ra.1 ++ (runRemoves removes g).1, (runRemoves removes g).2)

/-- sync_command from the computed plan onward (sync.py lines 156-190): when
to_add and to_remove are both empty the command returns before any mutation
call; otherwise the apply phase runs. Returns the attempted mutation calls. -/
def syncMutations (D : List (Nat × Track × String)) (R : List RemoteItem)
    (removeUnknown : Bool) (f : String → AddOutcome) (g : String → RemOutcome) :
    List ApiCall :=
  let p := computePlan D R removeUnknown
  if p.toAdd.isEmpty && p.toRemove.isEmpty then []
  else (applyPhase p.toAdd p.toRemove f g).1

theorem mem_vids_applyPlan (D : List (Nat × Track × String)) (R : List RemoteItem)
    (rm : Bool) (ids : Nat → String)
    (hnd : (R.map RemoteItem.item_id).Nodup)
    (x : Nat × Track × String) (hx : x ∈ D) :
    x.2.2 ∈ (applyPlan R (computePlan D R rm) ids).map RemoteItem.video_id := by
  unfold applyPlan
  simp only [List.map_append, List.mem_append]
  by_cases hin : x.2.2 ∈ R.map RemoteItem.video_id
  · left
    obtain ⟨it, hit, hvid⟩ := List.mem_map.mp hin
    have hkept : it.item_id ∉ (computePlan D R rm).toRemove.map (fun q => q.1) := by
      cases rm with
      | false =>
        rw [computePlan_toRemove_false]
        simp
      | true =>
        rw [computePlan_toRemove_true]
        intro hmem
        obtain ⟨q, hq, hq1⟩ := List.mem_map.mp hmem
        obtain ⟨it2, hit2, hpair⟩ := List.mem_map.mp hq
        have hid : it2.item_id = it.item_id := by
          rw [← hq1, ← hpair]
        have hit2R : it2 ∈ R := List.mem_of_mem_filter hit2
        have heq : it2 = it :=
          List.inj_on_of_nodup_map hnd hit2R hit hid
        have hbad := List.of_mem_filter hit2
        rw [heq, hvid] at hbad
        have hdes : x.2.2 ∈ D.map (fun x => x.2.2) := List.mem_map_of_mem _ hx
        simp [hdes] at hbad
    refine List.mem_map.mpr ⟨it, ?_, hvid⟩
    refine List.mem_filter.mpr ⟨hit, ?_⟩
    simpa using hkept
  · right
    have hadd : x ∈ (computePlan D R rm).toAdd := by
      rw [computePlan_toAdd]
      refine List.mem_filter.mpr ⟨hx, ?_⟩
      rw [dictContains_currentByVideoId]
      simpa using hin
    have hx2 : x ∈ (computePlan D R rm).toAdd.enum.map Prod.snd := by
      rw [List.enum_map_snd]
      exact hadd
    obtain ⟨pr, hpr, hsnd⟩ := List.mem_map.mp hx2
    refine List.mem_map.mpr ⟨⟨ids pr.1, pr.2.2.2, 0⟩, ?_, ?_⟩
    · exact List.mem_map.mpr ⟨pr, hpr, rfl⟩
    · rw [hsnd]

/-- C3: reconciliation is idempotent. After applying the computed plan to R
(with pairwise distinct remote item_ids), recomputing the plan over the same
D yields zero adds and zero removes, and sync_command performs no mutation
call on that second run. -/
theorem reconcile_idempotent (D : List (Nat × Track × String))
    (R : List RemoteItem) (rm : Bool) (ids : Nat → String)
    (f : String → AddOutcome) (g : String → RemOutcome)
    (hnd : (R.map RemoteItem.item_id).Nodup) :
    (computePlan D (applyPlan R (computePlan D R rm) ids) rm).toAdd = [] ∧
    (computePlan D (applyPlan R (computePlan D R rm) ids) rm).toRemove = [] ∧
    syncMutations D (applyPlan R (computePlan D R rm) ids) rm f g = [] := by
  have hAdd : (computePlan D (applyPlan R (computePlan D R rm) ids) rm).toAdd = [] := by
    rw [computePlan_toAdd]
    rw [List.filter_eq_nil_iff]
    intro x hx
    rw [dictContains_currentByVideoId]
    simp only [Bool.not_eq_true]
    have := mem_vids_applyPlan D R rm ids hnd x hx
    simp [this]
  have hRem : (computePlan D (applyPlan R (computePlan D R rm) ids) rm).toRemove = [] := by
    cases rm with
    | false => rw [computePlan_toRemove_false]
    | true =>
      rw [computePlan_toRemove_true]
      rw [List.map_eq_nil_iff, List.filter_eq_nil_iff]
      intro it hit
      unfold applyPlan at hit
      simp only [List.mem_append] at hit
      have hvdes : it.video_id ∈ D.map (fun x => x.2.2) := by
        rcases hit with hkept | hnew
        · have hcond := List.of_mem_filter hkept
          have hR := List.mem_of_mem_filter hkept
          by_contra hnd2
          have hidmem : it.item_id ∈ (computePlan D R true).toRemove.map (fun q => q.1) := by
            rw [computePlan_toRemove_true]
            refine List.mem_map.mpr ⟨(it.item_id, it.video_id), ?_, rfl⟩
            refine List.mem_map.mpr ⟨it, ?_, rfl⟩
            refine List.mem_filter.mpr ⟨hR, ?_⟩
            simpa using hnd2
          simp [hidmem] at hcond
        · obtain ⟨pr, hpr, hmk⟩ := List.mem_map.mp hnew
          have hvid : it.video_id = pr.2.2.2 := by
            rw [← hmk]
          have hprMem : pr.2 ∈ (computePlan D R true).toAdd := by
            have hm := List.mem_map_of_mem Prod.snd hpr
            rwa [List.enum_map_snd] at hm
          have hD : pr.2 ∈ D := by
            rw [computePlan_toAdd] at hprMem
            exact List.mem_of_mem_filter hprMem
          rw [hvid]
          exact List.mem_map_of_mem _ hD
      simp [hvdes]
  refine ⟨hAdd, hRem, ?_⟩
  unfold syncMutations
  simp [hAdd, hRem]

/-- Fresh item_ids used in the idempotence witness. -/
def exIds : Nat → String := fun n => String.append "new" (Nat.repr n)

/-- All-success add behavior for witnesses. -/
def exAddOk : String → AddOutcome := fun _ => AddOutcome.ok

/-- All-success remove behavior for witnesses. -/
def exRemOk : String → RemOutcome := fun _ => RemOutcome.ok

theorem reconcile_idempotent_witness :
    (exRemote3.map RemoteItem.item_id).Nodup ∧
    ((computePlan exDesired2 (applyPlan exRemote3 (computePlan exDesired2 exRemote3 true) exIds) true).toAdd = [] ∧
     (computePlan exDesired2 (applyPlan exRemote3 (computePlan exDesired2 exRemote3 true) exIds) true).toRemove = [] ∧
     syncMutations exDesired2 (applyPlan exRemote3 (computePlan exDesired2 exRemote3 true) exIds) true exAddOk exRemOk = []) :=
  ⟨by decide, reconcile_idempotent exDesired2 exRemote3 true exIds exAddOk exRemOk (by decide)⟩

theorem runAdds_all_adds (adds : List (Nat × Track × String))
    (f : String → AddOutcome) :
    ∀ c ∈ (runAdds adds f).1, ∃ v, c = ApiCall.addVideo v := by
  induction adds with
  | nil =>
    intro c hc
    simp [runAdds] at hc
  | cons x rest ih =>
    intro c hc
    cases hf : f x.2.2 with
    | quota =>
      simp only [runAdds, hf] at hc
      simp at hc
      exact ⟨x.2.2, hc⟩
    | ok =>
      simp only [runAdds, hf] at hc
      rcases List.mem_cons.mp hc with rfl | hc2
      · exact ⟨x.2.2, rfl⟩
      · exact ih c hc2
    | unavailable =>
      simp only [runAdds, hf] at hc
      rcases List.mem_cons.mp hc with rfl | hc2
      · exact ⟨x.2.2, rfl⟩
      · exact ih c hc2

theorem runRemoves_all_removes (removes : List (String × String))
    (g : String → RemOutcome) :
    ∀ c ∈ (runRemoves removes g).1, ∃ i, c = ApiCall.removeItem i := by
  induction removes with
  | nil =>
    intro c hc
    simp [runRemoves] at hc
  | cons x rest ih =>
    intro c hc
    cases hg : g x.1 with
    | quota =>
      simp only [runRemoves, hg] at hc
      simp at hc
      exact ⟨x.1, hc⟩
    | ok =>
      simp only [runRemoves, hg] at hc
      rcases List.mem_cons.mp hc with rfl | hc2
      · exact ⟨x.1, rfl⟩
      · exact ih c hc2

theorem runAdds_quota (adds : List (Nat × Track × String))
    (f : String → AddOutcome) (h : ∃ x ∈ adds, f x.2.2 = AddOutcome.quota) :
    (runAdds adds f).2 = true := by
  induction adds with
  | nil => simp at h
  | cons x rest ih =>
    obtain ⟨y, hy, hq⟩ := h
    cases hf : f x.2.2 with
    | quota => simp [runAdds, hf]
    | ok =>
      have hyr : y ∈ rest := by
        rcases List.mem_cons.mp hy with rfl | hr
        · rw [hq] at hf
          exact absurd hf (by simp)
        · exact hr
      simp only [runAdds, hf]
      exact ih ⟨y, hyr, hq⟩
    | unavailable =>
      have hyr : y ∈ rest := by
        rcases List.mem_cons.mp hy with rfl | hr
        · rw [hq] at hf
          exact absurd hf (by simp)
        · exact hr
      simp only [runAdds, hf]
      exact ih ⟨y, hyr, hq⟩

theorem runAdds_keeps_completed (adds : List (Nat × Track × String))
    (f : String → AddOutcome) :
    ∀ x ∈ adds.takeWhile (fun y => ! decide (f y.2.2 = AddOutcome.quota)),
      ApiCall.addVideo x.2.2 ∈ (runAdds adds f).1 := by
  induction adds with
  | nil => simp
  | cons a rest ih =>
    intro x hx
    by_cases hq : f a.2.2 = AddOutcome.quota
    · simp [List.takeWhile_cons, hq] at hx
    · rw [List.takeWhile_cons] at hx
      simp only [hq, decide_eq_true_eq] at hx
      rw [if_pos (by simp [hq])] at hx
      cases hf : f a.2.2 with
      | quota => exact absurd hf hq
      | ok =>
        simp only [runAdds, hf]
        rcases List.mem_cons.mp hx with rfl | hx2
        · exact List.mem_cons_self _ _
        · exact List.mem_cons_of_mem _ (ih x hx2)
      | unavailable =>
        simp only [runAdds, hf]
        rcases List.mem_cons.mp hx with rfl | hx2
        · exact List.mem_cons_self _ _
        · exact List.mem_cons_of_mem _ (ih x hx2)

/-- C4: the apply-phase trace always consists of add calls followed by remove
calls; and when a quota error strikes during the add phase, the run aborts
(SystemExit 1) with zero remove calls attempted, and the calls attempted up
to the quota point remain in the trace (no rollback). -/
theorem adds_before_removes_quota_aborts (adds : List (Nat × Track × String))
    (removes : List (String × String)) (f : String → AddOutcome)
    (g : String → RemOutcome)
    (h : ∃ x ∈ adds, f x.2.2 = AddOutcome.quota) :
    (∀ (a2 : List (Nat × Track × String)) (r2 : List (String × String))
        (f2 : String → AddOutcome) (g2 : String → RemOutcome),
      ∃ ta tr, (applyPhase a2 r2 f2 g2).1 = ta ++ tr ∧
        (∀ c ∈ ta, ∃ v, c = ApiCall.addVideo v) ∧
        (∀ c ∈ tr, ∃ i, c = ApiCall.removeItem i)) ∧
    (applyPhase adds removes f g).2 = true ∧
    (∀ c ∈ (applyPhase adds removes f g).1, ∃ v, c = ApiCall.addVideo v) ∧
    (∀ x ∈ adds.takeWhile (fun y => ! decide (f y.2.2 = AddOutcome.quota)),
      ApiCall.addVideo x.2.2 ∈ (applyPhase adds removes f g).1) := by
  have hra := runAdds_quota adds f h
  have happ : applyPhase adds removes f g = runAdds adds f := by
    unfold applyPhase
    rw [if_pos hra]
  refine ⟨?_, ?_, ?_, ?_⟩
  · intro a2 r2 f2 g2
    unfold applyPhase
    cases hcond : (runAdds a2 f2).2 with
    | true =>
      refine ⟨(runAdds a2 f2).1, [], by simp [hcond], runAdds_all_adds a2 f2, by simp⟩
    | false =>
      refine ⟨(runAdds a2 f2).1, (runRemoves r2 g2).1, by simp [hcond],
        runAdds_all_adds a2 f2, runRemoves_all_removes r2 g2⟩
  · rw [happ]
    exact hra
  · rw [happ]
    exact runAdds_all_adds adds f
  · rw [happ]
    exact runAdds_keeps_completed adds f

/-- Concrete adds list for the C4 witness: the second add hits the quota. -/
def exAdds : List (Nat × Track × String) :=
  [(1, exTrackA, "vid_a"), (2, exTrackB, "vid_b"), (3, ⟨3, "T3", "A3"⟩, "vid_c")]

/-- Concrete removes list for the C4 witness. -/
def exRemoves : List (String × String) := [("item9", "vid_z")]

/-- Add behavior for the C4 witness: quota error on vid_b. -/
def exQuotaOnB : String → AddOutcome :=
  fun v => if v = "vid_b" then AddOutcome.quota else AddOutcome.ok

theorem adds_before_removes_quota_aborts_witness :
    (∃ x ∈ exAdds, exQuotaOnB x.2.2 = AddOutcome.quota) ∧
    ((applyPhase exAdds exRemoves exQuotaOnB exRemOk).2 = true ∧
     (∀ c ∈ (applyPhase exAdds exRemoves exQuotaOnB exRemOk).1,
        ∃ v, c = ApiCall.addVideo v) ∧
     (∀ x ∈ exAdds.takeWhile (fun y => ! decide (exQuotaOnB y.2.2 = AddOutcome.quota)),
        ApiCall.addVideo x.2.2 ∈ (applyPhase exAdds exRemoves exQuotaOnB exRemOk).1)) :=
  ⟨⟨(2, exTrackB, "vid_b"), by decide, by decide⟩, by
    have hth := adds_before_removes_quota_aborts exAdds exRemoves exQuotaOnB exRemOk
      ⟨(2, exTrackB, "vid_b"), by decide, by decide⟩
    exact ⟨hth.2.1, hth.2.2.1, hth.2.2.2⟩⟩

/-- Remote list with a duplicated video_id, for C5. -/
def exDupRemote : List RemoteItem := [⟨"item1", "v", 0⟩, ⟨"item2", "v", 1⟩]

/-- C5 counterexample: the dict comprehension of sync.py line 109 overwrites
on duplicate keys, so the duplicated video_id v is bound to its LAST
occurrence item2, not to the first occurrence item1 as the claim states. -/
theorem currentByVideoId_first_wins_refuted :
    dictGet (currentByVideoId exDupRemote) "v" =
      some (⟨"item2", "v", 1⟩ : RemoteItem) ∧
    dictGet (currentByVideoId exDupRemote) "v" ≠
      some (⟨"item1", "v", 0⟩ : RemoteItem) := by
  exact ⟨by decide, by decide⟩

/-- C5 amended: current_by_video_id binds each duplicated video_id to its
last occurrence in R; key membership still agrees with membership among all
video_ids of R, and the engine does not deduplicate R itself - with purge
enabled, both duplicate unknown items are scheduled for removal. -/
theorem currentByVideoId_last_wins (R : List RemoteItem) (v : String) :
    dictGet (currentByVideoId R) v =
      R.reverse.find? (fun it => it.video_id == v) ∧
    dictContains (currentByVideoId R) v = decide (v ∈ R.map RemoteItem.video_id) ∧
    (computePlan [] exDupRemote true).toRemove =
      [("item1", "v"), ("item2", "v")] :=
  ⟨currentByVideoId_get R v, dictContains_currentByVideoId R v, by decide⟩

/-- The decimal digit character of d (0-9). -/
def digitChar (d : Nat) : Char := Char.ofNat (48 + d)

/-- Numeric value of a decimal digit character. -/
def digNat (c : Char) : Nat := c.toNat - 48

theorem digit_facts : ∀ d < 10, (digitChar d).isDigit = true ∧
    digNat (digitChar d) = d := by decide

/-- Python datetime value (the fields relevant to isoformat round-trips). -/
structure PyDatetime where
  year : Nat
  month : Nat
  day : Nat
  hour : Nat
  minute : Nat
  second : Nat
  microsecond : Nat
deriving DecidableEq, Repr

/-- Field bounds guaranteed by Python datetime (year at most 9999, hour and
minute and second below 100, microsecond below 10^6). -/
def ValidDt (dt : PyDatetime) : Prop :=
  dt.year < 10000 ∧ dt.month < 100 ∧ dt.day < 100 ∧ dt.hour < 100 ∧
    dt.minute < 100 ∧ dt.second < 100 ∧ dt.microsecond < 1000000

instance (dt : PyDatetime) : Decidable (ValidDt dt) := by
  unfold ValidDt
  infer_instance

/-- Two-digit zero-padded decimal rendering, as Python %02d on values
below 100. -/
def d2 (n : Nat) : List Char := [digitChar (n / 10), digitChar (n % 10)]

/-- datetime.isoformat(): YYYY-MM-DDTHH:MM:SS, with .ffffff appended only
when the microsecond field is nonzero. -/
def isoformat (dt : PyDatetime) : List Char :=
  d2 (dt.year / 100) ++ (d2 (dt.year % 100) ++ ('-' :: (d2 dt.month ++
    ('-' :: (d2 dt.day ++ ('T' :: (d2 dt.hour ++ (':' :: (d2 dt.minute ++
      (':' :: (d2 dt.second ++
        (if dt.microsecond = 0 then [] else
          '.' :: (d2 (dt.microsecond / 10000) ++
            (d2 (dt.microsecond / 100 % 100) ++
              d2 (dt.microsecond % 100)))))))))))))))

/-- Read two decimal digit characters. -/
def read2 : List Char → Option (Nat × List Char)
  | a :: b :: rest =>
    if a.isDigit && b.isDigit then some (10 * digNat a + digNat b, rest)
    else none
  | _ => none

/-- Expect one specific character. -/
def expectCh (c : Char) : List Char → Option (List Char)
  | x :: rest => if x = c then some rest else none
  | [] => none

/-- datetime.fromisoformat() on the canonical isoformat output shape. -/
def fromisoformat (s : List Char) : Option PyDatetime := do
  let (y1, r1) ← read2 s
  let (y2, r2) ← read2 r1
  let r3 ← expectCh '-' r2
  let (mo, r4) ← read2 r3
  let r5 ← expectCh '-' r4
  let (da, r6) ← read2 r5
  let r7 ← expectCh 'T' r6
  let (ho, r8) ← read2 r7
  let r9 ← expectCh ':' r8
  let (mi, r10) ← read2 r9
  let r11 ← expectCh ':' r10
  let (se, r12) ← read2 r11
  match r12 with
  | [] => some ⟨100 * y1 + y2, mo, da, ho, mi, se, 0⟩
  | '.' :: r13 => do
    let (u1, r14) ← read2 r13
    let (u2, r15) ← read2 r14
    let (u3, r16) ← read2 r15
    if r16 = [] then
      some ⟨100 * y1 + y2, mo, da, ho, mi, se, 10000 * u1 + 100 * u2 + u3⟩
    else none
  | _ => none

theorem read2_d2 (n : Nat) (rest : List Char) (h : n < 100) :
    read2 (d2 n ++ rest) = some (n, rest) := by
  have h1 := digit_facts (n / 10) (by omega)
  have h2 := digit_facts (n % 10) (by omega)
  simp only [d2, List.cons_append, List.nil_append, read2, h1.1, h2.1,
    Bool.and_self, if_pos]
  rw [h1.2, h2.2]
  have : 10 * (n / 10) + n % 10 = n := by omega
  rw [this]

theorem expectCh_same (c : Char) (r : List Char) :
    expectCh c (c :: r) = some r := by
  simp [expectCh]

theorem optBind_some {α β : Type} (a : α) (f : α → Option β) :
    (do
      let x ← some a
      f x : Option β) = f a := rfl

theorem fromisoformat_isoformat (dt : PyDatetime) (h : ValidDt dt) :
    fromisoformat (isoformat dt) = some dt := by
  obtain ⟨y, mo, da, ho, mi, se, us⟩ := dt
  simp only [ValidDt] at h
  obtain ⟨hy, hmo, hd, hh, hmi, hs, hus⟩ := h
  have e1 : ∀ r, read2 (d2 (y / 100) ++ r) = some (y / 100, r) :=
    fun r => read2_d2 _ r (by omega)
  have e2 : ∀ r, read2 (d2 (y % 100) ++ r) = some (y % 100, r) :=
    fun r => read2_d2 _ r (by omega)
  have e3 : ∀ r, read2 (d2 mo ++ r) = some (mo, r) :=
    fun r => read2_d2 _ r (by omega)
  have e4 : ∀ r, read2 (d2 da ++ r) = some (da, r) :=
    fun r => read2_d2 _ r (by omega)
  have e5 : ∀ r, read2 (d2 ho ++ r) = some (ho, r) :=
    fun r => read2_d2 _ r (by omega)
  have e6 : ∀ r, read2 (d2 mi ++ r) = some (mi, r) :=
    fun r => read2_d2 _ r (by omega)
  have e7 : ∀ r, read2 (d2 se ++ r) = some (se, r) :=
    fun r => read2_d2 _ r (by omega)
  by_cases hz : us = 0
  · subst hz
    simp only [isoformat, fromisoformat, if_pos rfl, e1, e2, e3, e4, e5, e6, e7,
      expectCh_same, optBind_some, Option.some.injEq, PyDatetime.mk.injEq]
    simp [Nat.div_add_mod]
  · have e8 : ∀ r, read2 (d2 (us / 10000) ++ r) = some (us / 10000, r) :=
      fun r => read2_d2 _ r (by omega)
    have e9 : ∀ r, read2 (d2 (us / 100 % 100) ++ r) = some (us / 100 % 100, r) :=
      fun r => read2_d2 _ r (by omega)
    have e10 : read2 (d2 (us % 100)) = some (us % 100, []) := by
      have h10 := read2_d2 (us % 100) [] (by omega)
      rwa [List.append_nil] at h10
    simp only [isoformat, fromisoformat, if_neg hz, e1, e2, e3, e4, e5, e6, e7,
      e8, e9, e10, expectCh_same, optBind_some, eq_self_iff_true, if_true,
      Option.some.injEq, PyDatetime.mk.injEq]
    refine ⟨Nat.div_add_mod y 100, trivial, trivial, trivial, trivial, trivial, by omega⟩

/-- A cached search result (models/track.py, class CacheEntry); selected is
a Python int, so it may be negative or out of range. -/
structure CacheEntry where
  query : String
  status : CacheStatus
  «matches» : List SearchMatch
  selected : Option Int
  searched_at : PyDatetime
  query_used : String
deriving DecidableEq, Repr

/-- Python exception raised by list subscription. -/
inductive PyErr where
  | indexError
deriving DecidableEq, Repr

/-- Python list subscription lst[i]: a nonnegative index must be below the
length; a negative index counts from the end; anything else raises
IndexError. -/
def pyListGet {α : Type} (l : List α) (i : Int) : Except PyErr α :=
  if h1 : 0 ≤ i then
    if h2 : i.toNat < l.length then Except.ok (l.get ⟨i.toNat, h2⟩)
    else Except.error PyErr.indexError
  else
    if h3 : i.natAbs ≤ l.length then
      Except.ok (l.get ⟨l.length - i.natAbs, by omega⟩)
    else Except.error PyErr.indexError

/-- CacheManager.get_selected_video_id (core/cache.py lines 92-99): None when
the entry is absent or NOT_FOUND, None when selected is None or
selected >= len(matches), otherwise matches[selected].video_id via Python
subscription. -/
def getSelectedVideoId (cache : List (String × CacheEntry)) (query : String) :
    Except PyErr (Option String) :=
  match dictGet cache query with
  | none => Except.ok none
  | some entry =>
    if entry.status = CacheStatus.NOT_FOUND then Except.ok none
    else
      match entry.selected with
      | none => Except.ok none
      | some sel =>
        if (entry.«matches».length : Int) ≤ sel then Except.ok none
        else
          match pyListGet entry.«matches» sel with
          | Except.ok m => Except.ok (some m.video_id)
          | Except.error e => Except.error e

/-- The resolved-video-id contract as amended: absent when the entry is
absent, NOT_FOUND, selected is absent or selected is at least len(matches);
matches[selected] for 0 <= selected < len(matches); Python negative indexing
for -len(matches) <= selected < 0; IndexError for selected below
-len(matches). -/
def resolvedVideoIdSpec (cache : List (String × CacheEntry)) (query : String) :
    Except PyErr (Option String) :=
  match dictGet cache query with
  | none => Except.ok none
  | some entry =>
    if entry.status = CacheStatus.NOT_FOUND then Except.ok none
    else
      match entry.selected with
      | none => Except.ok none
      | some sel =>
        if (entry.«matches».length : Int) ≤ sel then Except.ok none
        else if 0 ≤ sel then
          match entry.«matches».get? sel.toNat with
          | some m => Except.ok (some m.video_id)
          | none => Except.ok none
        else if sel.natAbs ≤ entry.«matches».length then
          match entry.«matches».get? (entry.«matches».length - sel.natAbs) with
          | some m => Except.ok (some m.video_id)
          | none => Except.ok none
        else Except.error PyErr.indexError

/-- A concrete search match used in cache examples. -/
def exMatch : SearchMatch := ⟨"vidX", "Title", "Channel", "3:45"⟩

/-- A concrete timestamp used in cache examples. -/
def exDt : PyDatetime := ⟨2025, 1, 10, 20, 30, 0, 0⟩

/-- Cache entry whose selected index is -2 with a single match. -/
def exNegEntry : CacheEntry :=
  ⟨"Neg - Case", CacheStatus.FOUND, [exMatch], some (-2), exDt, "q"⟩

/-- One-entry cache holding exNegEntry. -/
def exNegCache : List (String × CacheEntry) := [("Neg - Case", exNegEntry)]

/-- C6 counterexample: selected = -2 with one match does not name a valid
element, yet get_selected_video_id raises IndexError instead of returning
absent: matches[-2] is past the left end and the guard only checks
selected >= len(matches). -/
theorem resolvedVideoId_never_errors_refuted :
    getSelectedVideoId exNegCache "Neg - Case" = Except.error PyErr.indexError := by
  rfl

/-- C6 amended: get_selected_video_id returns absent when the entry is
absent, NOT_FOUND, selected is absent or selected is at least len(matches);
otherwise Python subscription applies, so a negative selected within
-len(matches) resolves from the end and one below -len(matches) raises
IndexError. -/
theorem resolvedVideoId_contract (cache : List (String × CacheEntry))
    (q : String) : getSelectedVideoId cache q = resolvedVideoIdSpec cache q := by
  unfold getSelectedVideoId resolvedVideoIdSpec
  cases dictGet cache q with
  | none => rfl
  | some entry =>
    by_cases hst : entry.status = CacheStatus.NOT_FOUND
    · simp [hst]
    · simp only [if_neg hst]
      cases entry.selected with
      | none => rfl
      | some sel =>
        by_cases hlen : (entry.«matches».length : Int) ≤ sel
        · simp [hlen]
        · simp only [if_neg hlen]
          unfold pyListGet
          by_cases hpos : 0 ≤ sel
          · have hlt : sel.toNat < entry.«matches».length := by omega
            rw [dif_pos hpos, dif_pos hlt, if_pos hpos]
            rw [List.get?_eq_get hlt]
          · rw [dif_neg hpos, if_neg hpos]
            by_cases hab : sel.natAbs ≤ entry.«matches».length
            · rw [dif_pos hab, if_pos hab]
              have hlt2 : entry.«matches».length - sel.natAbs < entry.«matches».length := by
                omega
              rw [List.get?_eq_get hlt2]
            · rw [dif_neg hab, if_neg hab]

/-- Error raised by CacheManager persistence (core/exceptions.py CacheError),
split by the operation that raised it. -/
inductive CacheError where
  | loadError
  | writeError
deriving DecidableEq, Repr

/-- CacheStatus.value as serialized by _save (core/cache.py line 64). -/
def statusValue : CacheStatus → String
  | CacheStatus.FOUND => "found"
  | CacheStatus.NOT_FOUND => "not_found"

/-- CacheStatus(value) as parsed by _load (core/cache.py line 49); an unknown
value raises ValueError. -/
def statusOfValue (s : String) : Option CacheStatus :=
  if s = "found" then some CacheStatus.FOUND
  else if s = "not_found" then some CacheStatus.NOT_FOUND
  else none

/-- JSON-level representation of one cache entry as written by _save
(core/cache.py lines 63-72): status string, match objects, selected,
isoformat timestamp and query_used. -/
structure EntryRepr where
  status : String
  «matches» : List SearchMatch
  selected : Option Int
  searched_at : List Char
  query_used : String
deriving DecidableEq, Repr

/-- Serialization of one entry (_save, core/cache.py lines 63-72). -/
def entryRepr (e : CacheEntry) : EntryRepr :=
  ⟨statusValue e.status, e.«matches», e.selected, isoformat e.searched_at,
    e.query_used⟩

/-- _save serializes the whole in-memory dict in iteration order
(core/cache.py lines 61-72). -/
def saveData (c : List (String × CacheEntry)) : List (String × EntryRepr) :=
  c.map (fun qe => (qe.1, entryRepr qe.2))

/-- _load of one entry (core/cache.py lines 37-54): CacheStatus(value) and
datetime.fromisoformat raise ValueError on bad data, surfaced as CacheError;
the query field is taken from the dict key. -/
def loadEntry (q : String) (r : EntryRepr) : Except CacheError CacheEntry :=
  match statusOfValue r.status with
  | none => Except.error CacheError.loadError
  | some st =>
    match fromisoformat r.searched_at with
    | none => Except.error CacheError.loadError
    | some dt => Except.ok ⟨q, st, r.«matches», r.selected, dt, r.query_used⟩

/-- _load over the whole persisted mapping (core/cache.py lines 36-55): the
first bad entry aborts the load. -/
def loadData : List (String × EntryRepr) →
    Except CacheError (List (String × CacheEntry))
  | [] => Except.ok []
  | (q, r) :: rest =>
    match loadEntry q r with
    | Except.error e => Except.error e
    | Except.ok entry =>
      match loadData rest with
      | Except.error e => Except.error e
      | Except.ok res => Except.ok ((q, entry) :: res)

theorem statusOfValue_statusValue (st : CacheStatus) :
    statusOfValue (statusValue st) = some st := by
  cases st <;> rfl

theorem loadEntry_entryRepr (q : String) (e : CacheEntry) (hq : e.query = q)
    (hv : ValidDt e.searched_at) : loadEntry q (entryRepr e) = Except.ok e := by
  subst hq
  simp only [loadEntry, entryRepr, statusOfValue_statusValue,
    fromisoformat_isoformat e.searched_at hv]

theorem loadData_saveData (c : List (String × CacheEntry))
    (h : ∀ p ∈ c, p.2.query = p.1 ∧ ValidDt p.2.searched_at) :
    loadData (saveData c) = Except.ok c := by
  induction c with
  | nil => rfl
  | cons p rest ih =>
    obtain ⟨q, e⟩ := p
    have hp := h (q, e) (List.mem_cons_self _ _)
    simp only at hp
    simp only [saveData, List.map_cons, loadData]
    rw [loadEntry_entryRepr q e hp.1 hp.2]
    have ihh := ih (fun p hp2 => h p (List.mem_cons_of_mem _ hp2))
    rw [show (rest.map fun qe => (qe.1, entryRepr qe.2)) = saveData rest from rfl,
      ihh]

theorem mem_dictInsert {α : Type} (m : List (String × α)) (k : String) (v : α) :
    ∀ p ∈ dictInsert m k v, p ∈ m ∨ p = (k, v) := by
  induction m with
  | nil =>
    intro p hp
    simp [dictInsert] at hp
    right
    exact hp
  | cons p0 rest ih =>
    intro p hp
    obtain ⟨k0, v0⟩ := p0
    by_cases h0 : k0 = k
    · subst h0
      simp only [dictInsert, if_pos rfl] at hp
      rcases List.mem_cons.mp hp with rfl | hrest
      · right
        rfl
      · left
        exact List.mem_cons_of_mem _ hrest
    · simp only [dictInsert, if_neg h0] at hp
      rcases List.mem_cons.mp hp with rfl | hrest
      · left
        exact List.mem_cons_self _ _
      · rcases ih p hrest with hm | he
        · left
          exact List.mem_cons_of_mem _ hm
        · right
          exact he

/-- C7: cache round-trip. Saving an entry into a well-formed cache (keys
match entry queries, timestamps in datetime range) and reloading the
persisted file reproduces the whole cache exactly, and get on entry.query
returns an entry equal to the saved one in every field. -/
theorem cache_roundtrip (c : List (String × CacheEntry)) (e : CacheEntry)
    (hc : ∀ p ∈ c, p.2.query = p.1 ∧ ValidDt p.2.searched_at)
    (he : ValidDt e.searched_at) :
    loadData (saveData (dictInsert c e.query e)) =
      Except.ok (dictInsert c e.query e) ∧
    dictGet (dictInsert c e.query e) e.query = some e := by
  constructor
  · apply loadData_saveData
    intro p hp
    rcases mem_dictInsert c e.query e p hp with hm | hpe
    · exact hc p hm
    · rw [hpe]
      exact ⟨rfl, he⟩
  · rw [dictGet_dictInsert]
    simp

/-- Concrete cache entry for the C7 witness. -/
def exEntry : CacheEntry :=
  ⟨"Test - Artist", CacheStatus.FOUND, [exMatch], some 0, exDt, "qstr"⟩

theorem cache_roundtrip_witness :
    ((∀ p ∈ ([] : List (String × CacheEntry)),
        p.2.query = p.1 ∧ ValidDt p.2.searched_at) ∧
      ValidDt exEntry.searched_at) ∧
    (loadData (saveData (dictInsert [] exEntry.query exEntry)) =
        Except.ok (dictInsert [] exEntry.query exEntry) ∧
      dictGet (dictInsert [] exEntry.query exEntry) exEntry.query =
        some exEntry) :=
  ⟨⟨fun p hp => absurd hp (List.not_mem_nil p), by decide⟩,
    cache_roundtrip [] exEntry (fun p hp => absurd hp (List.not_mem_nil p))
      (by decide)⟩

/-- CacheManager.save (core/cache.py lines 86-90) with the persistence
outcome made explicit: the in-memory dict is updated first; _save then
either writes the serialized whole cache or raises CacheError on an OSError
(lines 74-79), leaving the in-memory update in place. -/
def saveOp (c : List (String × CacheEntry)) (e : CacheEntry) (diskOk : Bool) :
    List (String × CacheEntry) × Except CacheError (List (String × EntryRepr)) :=
  let c2 := dictInsert c e.query e
  (c2,
    if diskOk then Except.ok (saveData c2)
    else Except.error CacheError.writeError)

/-- C8: save inserts or replaces the entry keyed by entry.query and then
persists the whole updated cache; when persistence fails with the
Cache-Write error, the in-memory map still contains the new entry. -/
theorem save_updates_memory_despite_write_error
    (c : List (String × CacheEntry)) (e : CacheEntry) (diskOk : Bool) :
    dictGet (saveOp c e diskOk).1 e.query = some e ∧
    (saveOp c e diskOk).1 = dictInsert c e.query e ∧
    (saveOp c e false).2 = Except.error CacheError.writeError ∧
    (saveOp c e true).2 = Except.ok (saveData (dictInsert c e.query e)) := by
  refine ⟨?_, rfl, rfl, rfl⟩
  rw [show (saveOp c e diskOk).1 = dictInsert c e.query e from rfl,
    dictGet_dictInsert]
  simp

/-- Classification of one track by the sync precondition loop
(sync.py lines 74-83). -/
inductive TrackClass where
  | resolved (video_id : String)
  | notFoundTrack
  | missingCacheTrack
deriving DecidableEq, Repr

/-- The else-branch of sync.py lines 78-83: entry present with status
NOT_FOUND goes to not_found, everything else to missing_cache. -/
def classifyFallback (cache : List (String × CacheEntry)) (t : Track) :
    TrackClass :=
  match dictGet cache t.query with
  | some e =>
    if e.status = CacheStatus.NOT_FOUND then TrackClass.notFoundTrack
    else TrackClass.missingCacheTrack
  | none => TrackClass.missingCacheTrack

/-- One iteration of the loop at sync.py lines 74-83: the resolved branch is
taken only when get_selected_video_id returns a truthy value, i.e. a
nonempty string. -/
def classifyTrack (cache : List (String × CacheEntry)) (t : Track) :
    Except PyErr TrackClass :=
  match getSelectedVideoId cache t.query with
  | Except.error e => Except.error e
  | Except.ok (some v) =>
    if v = "" then Except.ok (classifyFallback cache t)
    else Except.ok (TrackClass.resolved v)
  | Except.ok none => Except.ok (classifyFallback cache t)

/-- Outcome of the loop at sync.py lines 70-83 over all tracks, in order. -/
structure ClassifyResult where
  desired : List (Nat × Track × String)
  missing : List Track
  notFound : List Track
deriving DecidableEq, Repr

/-- The full precondition loop (sync.py lines 74-83); an exception from
get_selected_video_id aborts it. -/
def classifyTracks (cache : List (String × CacheEntry)) :
    List Track → Except PyErr ClassifyResult
  | [] => Except.ok ⟨[], [], []⟩
  | t :: rest =>
    match classifyTrack cache t with
    | Except.error e => Except.error e
    | Except.ok (TrackClass.resolved v) =>
      match classifyTracks cache rest with
      | Except.error e => Except.error e
      | Except.ok r => Except.ok ⟨(t.position, t, v) :: r.desired, r.missing, r.notFound⟩
    | Except.ok TrackClass.notFoundTrack =>
      match classifyTracks cache rest with
      | Except.error e => Except.error e
      | Except.ok r => Except.ok ⟨r.desired, r.missing, t :: r.notFound⟩
    | Except.ok TrackClass.missingCacheTrack =>
      match classifyTracks cache rest with
      | Except.error e => Except.error e
      | Except.ok r => Except.ok ⟨r.desired, t :: r.missing, r.notFound⟩

/-- The missing-cache gate of sync_command (sync.py lines 85-88), which runs
before get_authenticated_service and any YouTube access: the command exits
with code 1 (modelled as none) whenever missing_cache is nonempty. -/
def syncPrecheck (cache : List (String × CacheEntry)) (tracks : List Track) :
    Except PyErr (Option ClassifyResult) :=
  match classifyTracks cache tracks with
  | Except.error e => Except.error e
  | Except.ok r =>
    if r.missing = [] then Except.ok (some r) else Except.ok none

theorem classifyTracks_missing_mem (cache : List (String × CacheEntry))
    (tracks : List Track) (t : Track) (r : ClassifyResult)
    (hok : classifyTracks cache tracks = Except.ok r) (hmem : t ∈ tracks)
    (hcls : classifyTrack cache t = Except.ok TrackClass.missingCacheTrack) :
    t ∈ r.missing := by
  induction tracks generalizing r with
  | nil => simp at hmem
  | cons u rest ih =>
    rcases List.mem_cons.mp hmem with rfl | hrest
    · cases hr : classifyTracks cache rest with
      | error e =>
        simp [classifyTracks, hcls, hr] at hok
      | ok r2 =>
        simp only [classifyTracks, hcls, hr, Except.ok.injEq] at hok
        rw [← hok]
        exact List.mem_cons_self _ _
    · cases hc : classifyTrack cache u with
      | error e =>
        simp [classifyTracks, hc] at hok
      | ok cls =>
        cases hr : classifyTracks cache rest with
        | error e =>
          cases cls <;> simp [classifyTracks, hc, hr] at hok
        | ok r2 =>
          have hr2 : t ∈ r2.missing := ih r2 hr hrest
          cases cls with
          | resolved v =>
            simp only [classifyTracks, hc, hr, Except.ok.injEq] at hok
            rw [← hok]
            exact hr2
          | notFoundTrack =>
            simp only [classifyTracks, hc, hr, Except.ok.injEq] at hok
            rw [← hok]
            exact hr2
          | missingCacheTrack =>
            simp only [classifyTracks, hc, hr, Except.ok.injEq] at hok
            rw [← hok]
            exact List.mem_cons_of_mem _ hr2

/-- C9: a track whose cache entry is FOUND with a valid selected index whose
selected match has an empty-string video_id is classified missing-cache
(empty strings are falsy in Python), and sync_command then exits with
code 1 at the precondition gate, before any remote access. -/
theorem empty_video_id_counts_missing_cache (cache : List (String × CacheEntry))
    (t : Track) (entry : CacheEntry) (sel : Int) (m : SearchMatch)
    (tracks : List Track) (r0 : ClassifyResult)
    (hget : dictGet cache t.query = some entry)
    (hst : entry.status = CacheStatus.FOUND)
    (hsel : entry.selected = some sel)
    (hpos : 0 ≤ sel)
    (hm : entry.«matches».get? sel.toNat = some m)
    (hempty : m.video_id = "")
    (hmem : t ∈ tracks)
    (hok : classifyTracks cache tracks = Except.ok r0) :
    classifyTrack cache t = Except.ok TrackClass.missingCacheTrack ∧
    syncPrecheck cache tracks = Except.ok none := by
  obtain ⟨hlt, hgeteq⟩ := List.get?_eq_some.mp hm
  have hstne : ¬ entry.status = CacheStatus.NOT_FOUND := by
    rw [hst]
    simp
  have hres : getSelectedVideoId cache t.query = Except.ok (some "") := by
    unfold getSelectedVideoId
    simp only [hget]
    rw [if_neg hstne]
    simp only [hsel]
    have hle : ¬ (entry.«matches».length : Int) ≤ sel := by omega
    rw [if_neg hle]
    unfold pyListGet
    rw [dif_pos hpos, dif_pos hlt]
    simp only [hgeteq, hempty]
  have hcls : classifyTrack cache t = Except.ok TrackClass.missingCacheTrack := by
    unfold classifyTrack
    simp only [hres, eq_self_iff_true, if_true]
    unfold classifyFallback
    simp only [hget]
    rw [if_neg hstne]
  refine ⟨hcls, ?_⟩
  have hne : r0.missing ≠ [] :=
    List.ne_nil_of_mem (classifyTracks_missing_mem cache tracks t r0 hok hmem hcls)
  unfold syncPrecheck
  simp only [hok]
  rw [if_neg hne]

/-- Track whose query is the key of the empty-video_id entry. -/
def exTrackEmpty : Track := ⟨1, "Empty", "Vid"⟩

/-- Cache entry with status FOUND, selected 0, and an empty-string video_id
in the selected match. -/
def exEmptyVidEntry : CacheEntry :=
  ⟨"Empty - Vid", CacheStatus.FOUND, [⟨"", "T", "C", "3:00"⟩], some 0, exDt, "q"⟩

/-- One-entry cache holding exEmptyVidEntry. -/
def exEmptyVidCache : List (String × CacheEntry) := [("Empty - Vid", exEmptyVidEntry)]

theorem empty_video_id_counts_missing_cache_witness :
    (dictGet exEmptyVidCache exTrackEmpty.query = some exEmptyVidEntry ∧
      exEmptyVidEntry.status = CacheStatus.FOUND ∧
      exEmptyVidEntry.selected = some 0 ∧
      exEmptyVidEntry.«matches».get? (0 : Int).toNat =
        some ⟨"", "T", "C", "3:00"⟩ ∧
      classifyTracks exEmptyVidCache [exTrackEmpty] =
        Except.ok ⟨[], [exTrackEmpty], []⟩) ∧
    (classifyTrack exEmptyVidCache exTrackEmpty =
        Except.ok TrackClass.missingCacheTrack ∧
      syncPrecheck exEmptyVidCache [exTrackEmpty] = Except.ok none) :=
  ⟨⟨by rfl, by rfl, by rfl, by rfl, by rfl⟩,
    empty_video_id_counts_missing_cache exEmptyVidCache exTrackEmpty
      exEmptyVidEntry 0 ⟨"", "T", "C", "3:00"⟩ [exTrackEmpty]
      ⟨[], [exTrackEmpty], []⟩ (by rfl) (by rfl) (by rfl) (by decide) (by rfl)
      (by rfl) (List.mem_singleton.mpr rfl) (by rfl)⟩

/-- Decimal digits of n without leading zeros, fuel-based so the kernel can
evaluate it; natDigits n below always supplies enough fuel. -/
def natDigitsAux : Nat → Nat → List Char
  | 0, _ => []
  | fuel + 1, n =>
    if n < 10 then [digitChar n]
    else natDigitsAux fuel (n / 10) ++ [digitChar (n % 10)]

/-- str(n) for a natural number, as rendered by Python f-strings. -/
def natDigits (n : Nat) : List Char := natDigitsAux (n + 1) n

/-- int() of a run of decimal digit characters. -/
def digitsVal (ds : List Char) : Nat :=
  ds.foldl (fun a c => 10 * a + digNat c) 0

theorem digitsVal_append_single (xs : List Char) (c : Char) :
    digitsVal (xs ++ [c]) = 10 * digitsVal xs + digNat c := by
  unfold digitsVal
  rw [List.foldl_append]
  simp

theorem natDigitsAux_spec : ∀ fuel n, n < fuel →
    natDigitsAux fuel n ≠ [] ∧ (∀ c ∈ natDigitsAux fuel n, c.isDigit = true) ∧
      digitsVal (natDigitsAux fuel n) = n := by
  intro fuel
  induction fuel with
  | zero =>
    intro n h
    exact absurd h (by omega)
  | succ fuel ih =>
    intro n h
    by_cases h10 : n < 10
    · refine ⟨by simp [natDigitsAux, h10], ?_, ?_⟩
      · intro c hc
        simp only [natDigitsAux, if_pos h10, List.mem_singleton] at hc
        rw [hc]
        exact (digit_facts n h10).1
      · simp only [natDigitsAux, if_pos h10, digitsVal, List.foldl_cons,
          List.foldl_nil]
        have hv := (digit_facts n h10).2
        omega
    · have hf : n / 10 < fuel := by omega
      obtain ⟨ih1, ih2, ih3⟩ := ih (n / 10) hf
      have hd := digit_facts (n % 10) (by omega)
      refine ⟨by simp [natDigitsAux, h10], ?_, ?_⟩
      · intro c hc
        simp only [natDigitsAux, if_neg h10] at hc
        rcases List.mem_append.mp hc with hc1 | hc2
        · exact ih2 c hc1
        · simp only [List.mem_singleton] at hc2
          rw [hc2]
          exact hd.1
      · simp only [natDigitsAux, if_neg h10]
        rw [digitsVal_append_single, ih3, hd.2]
        omega

theorem natDigits_spec (n : Nat) :
    natDigits n ≠ [] ∧ (∀ c ∈ natDigits n, c.isDigit = true) ∧
      digitsVal (natDigits n) = n :=
  natDigitsAux_spec (n + 1) n (by omega)

theorem takeWhile_all_then_stop {p : Char → Bool} (ds : List Char) (c : Char)
    (rest : List Char) (hall : ∀ x ∈ ds, p x = true) (hc : p c = false) :
    (ds ++ c :: rest).takeWhile p = ds ∧
      (ds ++ c :: rest).dropWhile p = c :: rest := by
  induction ds with
  | nil =>
    constructor
    · simp [List.takeWhile_cons, hc]
    · simp [List.dropWhile_cons, hc]
  | cons d ds ih =>
    have hd : p d = true := hall d (List.mem_cons_self _ _)
    have ihh := ih (fun x hx => hall x (List.mem_cons_of_mem _ hx))
    constructor
    · simp only [List.cons_append, List.takeWhile_cons, hd, if_true, ihh.1]
    · simp only [List.cons_append, List.dropWhile_cons, hd, if_true, ihh.2]

/-- One optional group (\d+)X of the PT regex at utils.py line 40: a maximal
nonempty digit run directly followed by the letter consumes both; otherwise
nothing is consumed and the group is absent (regex backtracking cannot help,
because a shorter digit run is followed by a digit, not the letter). -/
def readGroup (letter : Char) (s : List Char) : Option Nat × List Char :=
  match s.takeWhile Char.isDigit, s.dropWhile Char.isDigit with
  | [], _ => (none, s)
  | _ :: _, [] => (none, s)
  | d :: ds, c :: rest2 =>
    if c = letter then (some (digitsVal (d :: ds)), rest2) else (none, s)

/-- Exactly two decimal digits. -/
def twoDigits : List Char → Option (List Char)
  | a :: b :: rest => if a.isDigit && b.isDigit then some rest else none
  | _ => none

/-- Python re "$" without MULTILINE: end of string or a single trailing
newline. -/
def atLineEnd : List Char → Bool
  | [] => true
  | [c] => c = '\n'
  | _ => false

/-- The anchored regex of utils.py line 38 over the whole string:
digits, colon, two digits, optionally colon and two digits, then $. -/
def matchesTimeForm (s : List Char) : Bool :=
  match s.takeWhile Char.isDigit, s.dropWhile Char.isDigit with
  | [], _ => false
  | _ :: _, ':' :: r2 =>
    match twoDigits r2 with
    | none => false
    | some r3 =>
      if atLineEnd r3 then true
      else
        match r3 with
        | ':' :: r4 =>
          match twoDigits r4 with
          | none => false
          | some r5 => atLineEnd r5
        | _ => false
  | _ :: _, _ => false

/-- Python %02d. -/
def pad2py (n : Nat) : List Char :=
  if n < 10 then '0' :: natDigits n else natDigits n

/-- The conversion branch of format_duration (core/utils.py lines 43-49):
the optional H, M and S groups are read in order, missing groups default to
zero, and the result is h:mm:ss when hours are positive and m:ss otherwise
(f-string rendering, so minutes and seconds are %02d-padded). -/
def formatPT (rest : List Char) : String :=
  let g1 := readGroup 'H' rest
  let g2 := readGroup 'M' g1.2
  let g3 := readGroup 'S' g2.2
  let hours := g1.1.getD 0
  let minutes := g2.1.getD 0
  let seconds := g3.1.getD 0
  if hours > 0 then
    String.mk (natDigits hours ++ ':' :: (pad2py minutes ++ ':' :: pad2py seconds))
  else
    String.mk (natDigits minutes ++ ':' :: pad2py seconds)

/-- Does the string begin with the characters P T. -/
def startsPT : List Char → Bool
  | 'P' :: 'T' :: _ => true
  | _ => false

/-- format_duration (core/utils.py lines 36-49): a string matching the
m:ss / h:mm:ss regex is returned unchanged; otherwise a string that does
not start with "PT" fails the second regex (every group being optional)
and is returned unchanged; otherwise the PT branch converts. Total: it
always returns a string and never raises. -/
def formatDuration (s : String) : String :=
  if matchesTimeForm s.toList then s
  else
    match s.toList with
    | 'P' :: 'T' :: rest => formatPT rest
    | _ => s

theorem readGroup_hit (letter : Char) (n : Nat) (rest : List Char)
    (hlet : letter.isDigit = false) :
    readGroup letter (natDigits n ++ letter :: rest) = (some n, rest) := by
  obtain ⟨hne, hdig, hval⟩ := natDigits_spec n
  have htw := takeWhile_all_then_stop (natDigits n) letter rest hdig hlet
  unfold readGroup
  rw [htw.1, htw.2]
  cases hds : natDigits n with
  | nil => exact absurd hds hne
  | cons d ds =>
    show (if letter = letter then (some (digitsVal (d :: ds)), rest)
      else (none, d :: ds ++ letter :: rest)) = (some n, rest)
    rw [if_pos (rfl : letter = letter), ← hds, hval]

/-- C10: format_duration is total and never raises; a string already in
m:ss or h:mm:ss form is returned unchanged; a string not beginning with the
ISO-8601 "PT" prefix is returned unchanged; and PTnHnMnS converts to
h:mm:ss when hours are positive and to m:ss otherwise, with missing
components (concrete cases below) treated as zero. -/
theorem formatDuration_contract :
    (∀ s : String, matchesTimeForm s.toList = true → formatDuration s = s) ∧
    (∀ s : String, startsPT s.toList = false → formatDuration s = s) ∧
    (∀ h m sec : Nat,
      formatDuration (String.mk ('P' :: 'T' :: (natDigits h ++ 'H' ::
          (natDigits m ++ 'M' :: (natDigits sec ++ ['S']))))) =
        (if h > 0 then
          String.mk (natDigits h ++ ':' :: (pad2py m ++ ':' :: pad2py sec))
        else String.mk (natDigits m ++ ':' :: pad2py sec))) ∧
    (formatDuration "PT4M" = "4:00" ∧ formatDuration "PT2H" = "2:00:00" ∧
      formatDuration "PT25S" = "0:25" ∧ formatDuration "PT" = "0:00" ∧
      formatDuration "PT1H2M3S" = "1:02:03" ∧
      formatDuration "3:45" = "3:45" ∧
      formatDuration "12:34:56" = "12:34:56" ∧
      formatDuration "abc" = "abc") := by
  refine ⟨?_, ?_, ?_, ?_⟩
  · intro s hm
    unfold formatDuration
    rw [if_pos hm]
  · intro s hpt
    unfold formatDuration
    by_cases hm : matchesTimeForm s.toList
    · rw [if_pos hm]
    · rw [if_neg hm]
      split
      · rename_i rest heq
        rw [heq] at hpt
        simp [startsPT] at hpt
      · rfl
  · intro h m sec
    have hH : ('H').isDigit = false := by decide
    have hM : ('M').isDigit = false := by decide
    have hS : ('S').isDigit = false := by decide
    have hg1 := readGroup_hit 'H' h (natDigits m ++ 'M' :: (natDigits sec ++ ['S'])) hH
    have hg2 := readGroup_hit 'M' m (natDigits sec ++ ['S']) hM
    have hg3 := readGroup_hit 'S' sec [] hS
    have hcs : (String.mk ('P' :: 'T' :: (natDigits h ++ 'H' ::
        (natDigits m ++ 'M' :: (natDigits sec ++ ['S']))))).toList =
        'P' :: 'T' :: (natDigits h ++ 'H' ::
          (natDigits m ++ 'M' :: (natDigits sec ++ ['S']))) := rfl
    have hpt : matchesTimeForm ('P' :: 'T' :: (natDigits h ++ 'H' ::
        (natDigits m ++ 'M' :: (natDigits sec ++ ['S'])))) = false := by
      have hP : ('P').isDigit = false := by decide
      unfold matchesTimeForm
      simp [List.takeWhile_cons, hP]
    unfold formatDuration
    rw [hcs, if_neg (by rw [hpt]; simp)]
    show formatPT (natDigits h ++ 'H' ::
      (natDigits m ++ 'M' :: (natDigits sec ++ ['S']))) = _
    unfold formatPT
    simp only [hg1, hg2, hg3, Option.getD_some]
  · refine ⟨by decide, by decide, by decide, by decide, by decide, by decide,
      by decide, by decide⟩

theorem formatDuration_contract_witness :
    (matchesTimeForm ("7:08" : String).toList = true ∧
      formatDuration "7:08" = "7:08") ∧
    (startsPT ("hello" : String).toList = false ∧
      formatDuration "hello" = "hello") ∧
    formatDuration (String.mk ('P' :: 'T' :: (natDigits 2 ++ 'H' ::
        (natDigits 3 ++ 'M' :: (natDigits 4 ++ ['S']))))) =
      (if 2 > 0 then
        String.mk (natDigits 2 ++ ':' :: (pad2py 3 ++ ':' :: pad2py 4))
      else String.mk (natDigits 3 ++ ':' :: pad2py 4)) :=
  ⟨⟨by decide, formatDuration_contract.1 "7:08" (by decide)⟩,
    ⟨by decide, formatDuration_contract.2.1 "hello" (by decide)⟩,
    formatDuration_contract.2.2.1 2 3 4⟩

end PlaylistSync
